import Mathlib

/-!
Shallow embedding of the FastAPI "recipes" service
(`homework/models.py`, `homework/schemas.py`, `homework/routers.py`).

The database is a list of recipe rows plus the next storage-assigned id.
Each HTTP endpoint becomes a function from the database state to a
response paired with the new database state.  Commit failure in the
get-by-id handler is modelled by an explicit `commitOk` flag: the source
catches any exception from `session.commit()`, rolls back, logs, and
still returns the in-memory (incremented) entity.
-/

namespace Homework

/-- A time-of-day value, as `datetime.time` restricted to the
`HH:MM:SS` wire format used by the service (no microseconds on the wire). -/
structure Time where
  hour : Nat
  minute : Nat
  second : Nat
deriving Repr, DecidableEq

/-- Seconds since midnight; `datetime.time` values with zero microseconds
compare exactly like their seconds-since-midnight value. -/
def Time.toSec (t : Time) : Nat :=
  t.hour * 3600 + t.minute * 60 + t.second

/-- The ORM model `models.Recipes`: one stored row. -/
structure Recipes where
  id : Int
  name : String
  views : Nat
  cooking_time : Time
  list_of_ingredients : String
  description : String
deriving Repr, DecidableEq

/-- The storage state: the `Recipes` table plus the autoincrement counter
the storage engine uses to assign primary keys. -/
structure DB where
  rows : List Recipes
  nextId : Int
deriving Repr, DecidableEq

/-- The input schema `schemas.RecipesIn`: the four declared fields, all
required, after successful validation. -/
structure RecipesIn where
  name : String
  cooking_time : Time
  list_of_ingredients : String
  description : String
deriving Repr, DecidableEq

/-- A raw create-request body before validation: each declared field may be
absent, `cooking_time` arrives as a string, and the body may carry extra
keys (pydantic's default config ignores them). -/
structure RawRequest where
  name : Option String
  cooking_time : Option String
  list_of_ingredients : Option String
  description : Option String
  extra : List (String × String)
deriving Repr, DecidableEq

/-- Split a character list at every occurrence of the separator `c`. -/
def splitOnChar (c : Char) : List Char → List (List Char)
  | [] => [[]]
  | x :: xs =>
    let r := splitOnChar c xs
    if x = c then [] :: r
    else
      match r with
      | [] => [[x]]
      | y :: ys => (x :: y) :: ys

/-- Read a nonempty all-digit character list as a natural number. -/
def digitsToNat (l : List Char) : Option Nat :=
  if l ≠ [] ∧ l.all Char.isDigit then
    some (l.foldl (fun acc c => acc * 10 + (c.toNat - 48)) 0)
  else none

/-- Parse a `HH:MM:SS` string into a `Time`, as pydantic validates the
`cooking_time : time` field.  Fails on any other shape or out-of-range
component. -/
def parseTime (s : String) : Option Time :=
  match splitOnChar ':' s.toList with
  | [hs, ms, ss] =>
    match digitsToNat hs, digitsToNat ms, digitsToNat ss with
    | some h, some m, some sec =>
      if h < 24 ∧ m < 60 ∧ sec < 60 then some ⟨h, m, sec⟩ else none
    | _, _, _ => none
  | _ => none

/-- Pydantic validation of a raw body against `RecipesIn`: all four declared
fields must be present and `cooking_time` must parse as a time value; extra
keys are ignored. -/
def validate (r : RawRequest) : Option RecipesIn :=
  match r.name, r.cooking_time, r.list_of_ingredients, r.description with
  | some n, some ct, some ing, some d =>
    match parseTime ct with
    | some t => some ⟨n, t, ing, d⟩
    | none => none
  | _, _, _, _ => none

/-- An HTTP response: a single recipe body, a list body, or an error status
with its detail text. -/
inductive Response where
  | recipeOut (r : Recipes)
  | recipeList (rs : List Recipes)
  | httpError (status : Nat) (detail : String)
deriving Repr, DecidableEq

/-- The ordering used by the list endpoint:
`order_by(views.desc(), cooking_time.asc())`. -/
def recipeOrder (a b : Recipes) : Bool :=
  b.views < a.views ∨ (a.views = b.views ∧ a.cooking_time.toSec ≤ b.cooking_time.toSec)

/-- The same ordering as a proposition: `a` may come before `b` iff `a` has
strictly more views, or equal views and a cooking time no larger. -/
def recipeLE (a b : Recipes) : Prop :=
  b.views < a.views ∨ (a.views = b.views ∧ a.cooking_time.toSec ≤ b.cooking_time.toSec)

/-- `GET /recipes/`: select all rows ordered by views descending then
cooking time ascending; no write happens. -/
def listRecipes (db : DB) : Response × DB :=
  (.recipeList (db.rows.mergeSort recipeOrder), db)

/-- Replace the first row whose id is `i` — the ORM mutates in place the
single object returned by `scalar_one_or_none`. -/
def replaceFirst (i : Int) (r' : Recipes) : List Recipes → List Recipes
  | [] => []
  | x :: xs => if x.id = i then r' :: xs else x :: replaceFirst i r' xs

/-- `GET /recipes/{recipe_id}`: look the row up; on a miss raise
`HTTPException(404, "Recipe not found")`; on a hit increment `views` in
memory and try to commit.  `commitOk = false` models `session.commit()`
raising: the handler rolls back (storage keeps the old value), logs, and
still returns the incremented in-memory entity with a 200. -/
def getRecipeById (recipe_id : Int) (commitOk : Bool) (db : DB) : Response × DB :=
  match db.rows.find? (fun r => r.id == recipe_id) with
  | none => (.httpError 404 "Recipe not found", db)
  | some recipe =>
    let updated := { recipe with views := recipe.views + 1 }
    if commitOk then
      (.recipeOut updated, { db with rows := replaceFirst recipe_id updated db.rows })
    else
      (.recipeOut updated, db)

/-- `POST /recipes/`: validate the body (422 on failure, nothing written);
on success insert `models.Recipes(**recipe.model_dump())` — so `views`
takes its column default 0 and the id is storage-assigned — commit, and
return the new row. -/
def add_recipes (raw : RawRequest) (db : DB) : Response × DB :=
  match validate raw with
  | none => (.httpError 422 "validation error", db)
  | some rin =>
    let new_recipe : Recipes :=
      { id := db.nextId
        name := rin.name
        views := 0
        cooking_time := rin.cooking_time
        list_of_ingredients := rin.list_of_ingredients
        description := rin.description }
    (.recipeOut new_recipe, { rows := db.rows ++ [new_recipe], nextId := db.nextId + 1 })

/-- One API operation. -/
inductive Op where
  | list
  | get (recipe_id : Int) (commitOk : Bool)
  | create (raw : RawRequest)
deriving Repr, DecidableEq

/-- Dispatch one operation against the storage state. -/
def applyOp (op : Op) (db : DB) : Response × DB :=
  match op with
  | .list => listRecipes db
  | .get i ok => getRecipeById i ok db
  | .create raw => add_recipes raw db

/-- Run a sequence of operations, keeping only the final storage state. -/
def applyOps (ops : List Op) (db : DB) : DB :=
  ops.foldl (fun db op => (applyOp op db).2) db

/-- Fetch the same id `n` times sequentially with every commit succeeding,
collecting the responses in order. -/
def getN (i : Int) : Nat → DB → List Response × DB
  | 0, db => ([], db)
  | n + 1, db =>
    ((getRecipeById i true db).1 :: (getN i n (getRecipeById i true db).2).1,
     (getN i n (getRecipeById i true db).2).2)

/-- Storage well-formedness: primary keys are pairwise distinct and below
the autoincrement counter. -/
def WF (db : DB) : Prop :=
  db.rows.Pairwise (fun a b => a.id ≠ b.id) ∧ ∀ r ∈ db.rows, r.id < db.nextId

/-! ### Helper lemmas -/

/-- With pairwise-distinct primary keys, the lookup finds exactly the row
known to carry the requested id. -/
lemma find_eq_some {rows : List Recipes} {r : Recipes} {i : Int}
    (hp : rows.Pairwise (fun a b => a.id ≠ b.id)) (hr : r ∈ rows) (hid : r.id = i) :
    rows.find? (fun x => x.id == i) = some r := by
  induction rows with
  | nil => cases hr
  | cons x xs ih =>
    rcases List.pairwise_cons.mp hp with ⟨hx, hp'⟩
    rcases List.mem_cons.mp hr with h | h
    · subst h
      simp [List.find?, hid]
    · have hne : x.id ≠ i := fun hcontra => (hx r h) (hcontra.trans hid.symm)
      simp only [List.find?, beq_eq_false_iff_ne.mpr hne]
      exact ih hp' h

/-- Under distinct ids, replacing the row with id `i` by its incremented
version is a pointwise map touching only that row. -/
lemma replaceFirst_eq_map {rows : List Recipes} {r : Recipes} {i : Int}
    (hp : rows.Pairwise (fun a b => a.id ≠ b.id)) (hr : r ∈ rows) (hid : r.id = i) :
    replaceFirst i { r with views := r.views + 1 } rows =
      rows.map (fun x => if x.id = i then { x with views := x.views + 1 } else x) := by
  induction rows with
  | nil => cases hr
  | cons x xs ih =>
    rcases List.pairwise_cons.mp hp with ⟨hx, hp'⟩
    by_cases hxi : x.id = i
    · have hxr : x = r := by
        rcases List.mem_cons.mp hr with h | h
        · exact h.symm
        · exact absurd (hxi.trans hid.symm) (hx r h)
      subst hxr
      have htail : ∀ y ∈ xs, y.id ≠ i := fun y hy =>
        fun hcontra => (hx y hy) (hxi.trans hcontra.symm)
      simp only [replaceFirst, if_pos hxi, List.map]
      congr 1
      have : ∀ y ∈ xs,
          (fun x => if x.id = i then { x with views := x.views + 1 } else x) y = id y :=
        fun y hy => by simp [htail y hy]
      rw [List.map_congr_left this, List.map_id]
    · have hrxs : r ∈ xs := by
        rcases List.mem_cons.mp hr with h | h
        · exact absurd (h ▸ hid) hxi
        · exact h
      simp only [replaceFirst, if_neg hxi, List.map]
      rw [ih hp' hrxs]

/-- The central description of a successful fetch: under well-formed
storage, looking up the id of a stored row returns that row with `views`
bumped, and the committed state bumps exactly that row. -/
lemma get_found {db : DB} {i : Int} {r : Recipes}
    (hWF : WF db) (hr : r ∈ db.rows) (hid : r.id = i) :
    getRecipeById i true db =
      (.recipeOut { r with views := r.views + 1 },
       { db with rows :=
           db.rows.map (fun x => if x.id = i then { x with views := x.views + 1 } else x) }) := by
  unfold getRecipeById
  rw [find_eq_some hWF.1 hr hid]
  simp only [if_pos]
  rw [replaceFirst_eq_map hWF.1 hr hid]

/-- The view-bump map keeps every id unchanged. -/
lemma bump_id (i : Int) (x : Recipes) :
    ((fun x => if x.id = i then { x with views := x.views + 1 } else x) x).id = x.id := by
  by_cases h : x.id = i <;> simp [h]

/-- Well-formedness survives the committed view bump. -/
lemma WF_map_bump {db : DB} (i : Int) (hWF : WF db) :
    WF { db with rows :=
        db.rows.map (fun x => if x.id = i then { x with views := x.views + 1 } else x) } := by
  constructor
  · rw [List.pairwise_map]
    refine hWF.1.imp_of_mem ?_
    intro a b _ _ hab
    rw [bump_id, bump_id]
    exact hab
  · intro r hr
    rcases List.mem_map.mp hr with ⟨x, hx, hxeq⟩
    have := hWF.2 x hx
    rw [← hxeq, bump_id]
    exact this

/-- Well-formedness survives a successful insert. -/
lemma WF_insert {db : DB} (new_recipe : Recipes)
    (hWF : WF db) (hid : new_recipe.id = db.nextId) :
    WF ⟨db.rows ++ [new_recipe], db.nextId + 1⟩ := by
  constructor
  · rw [List.pairwise_append]
    refine ⟨hWF.1, List.pairwise_singleton _ _, ?_⟩
    intro a ha b hb
    rcases List.mem_singleton.mp hb with rfl
    have := hWF.2 a ha
    omega
  · intro r hr
    show r.id < db.nextId + 1
    rcases List.mem_append.mp hr with h | h
    · have := hWF.2 r h
      omega
    · rcases List.mem_singleton.mp h with rfl
      omega

/-- Boolean and propositional forms of the list ordering agree. -/
lemma recipeOrder_iff (a b : Recipes) : recipeOrder a b = true ↔ recipeLE a b := by
  simp [recipeOrder, recipeLE]

/-- The list ordering is total. -/
lemma recipeOrder_total (a b : Recipes) : recipeOrder a b || recipeOrder b a := by
  simp only [Bool.or_eq_true, recipeOrder, decide_eq_true_eq]
  omega

/-- The list ordering is transitive. -/
lemma recipeOrder_trans (a b c : Recipes) :
    recipeOrder a b → recipeOrder b c → recipeOrder a c := by
  simp only [recipeOrder, decide_eq_true_eq]
  omega

/-! ### Sample data for witnesses -/

/-- Concrete stored row used by the witnesses. -/
def sampleRow : Recipes :=
  ⟨1, "Pasta Carbonara", 100, ⟨0, 30, 0⟩, "pasta, eggs, bacon", "Classic Italian recipe"⟩

/-- Concrete one-row database used by the witnesses. -/
def sampleDB : DB := ⟨[sampleRow], 2⟩

/-- Concrete valid raw create request used by the witnesses. -/
def sampleRaw : RawRequest :=
  ⟨some "Caesar Salad", some "00:20:00", some "lettuce, chicken, croutons",
   some "Classic salad with chicken", []⟩

/-- The validated form of `sampleRaw`. -/
def sampleIn : RecipesIn :=
  ⟨"Caesar Salad", ⟨0, 20, 0⟩, "lettuce, chicken, croutons", "Classic salad with chicken"⟩

/-! ### Claims -/

/-- C2: the list operation returns exactly the stored recipes, as a
sequence sorted by views descending with ties broken by cooking time
ascending; it returns the empty sequence when no rows exist, and it leaves
storage unchanged. -/
theorem list_sorted_no_side_effects (db : DB) :
    (listRecipes db).2 = db ∧
    ∃ l, (listRecipes db).1 = .recipeList l ∧
      l.Perm db.rows ∧ l.Pairwise recipeLE ∧ (db.rows = [] → l = []) := by
  refine ⟨rfl, db.rows.mergeSort recipeOrder, rfl, List.mergeSort_perm _ _, ?_, ?_⟩
  · exact (List.sorted_mergeSort recipeOrder_trans recipeOrder_total db.rows).imp
      fun h => (recipeOrder_iff _ _).mp h
  · intro h
    rw [h]
    simp

/-- C3: fetching an id matching no stored row fails with status 404 and
detail exactly "Recipe not found", leaving storage unchanged. -/
theorem get_absent_id_not_found (db : DB) (i : Int) (ok : Bool)
    (h : ∀ r ∈ db.rows, r.id ≠ i) :
    getRecipeById i ok db = (.httpError 404 "Recipe not found", db) := by
  have hf : db.rows.find? (fun x => x.id == i) = none :=
    List.find?_eq_none.mpr fun x hx => by simpa using h x hx
  simp [getRecipeById, hf]

/-- Witness for C3 at a concrete database and id. -/
theorem get_absent_id_not_found_witness :
    (∀ r ∈ sampleDB.rows, r.id ≠ 999) ∧
    getRecipeById 999 true sampleDB = (.httpError 404 "Recipe not found", sampleDB) :=
  have h : ∀ r ∈ sampleDB.rows, r.id ≠ 999 := by decide
  ⟨h, get_absent_id_not_found sampleDB 999 true h⟩

/-- Unfolding of a successful create: the inserted row and committed state. -/
lemma add_valid_eq (raw : RawRequest) (rin : RecipesIn) (db : DB)
    (h : validate raw = some rin) :
    add_recipes raw db =
      (.recipeOut ⟨db.nextId, rin.name, 0, rin.cooking_time,
         rin.list_of_ingredients, rin.description⟩,
       ⟨db.rows ++ [⟨db.nextId, rin.name, 0, rin.cooking_time,
          rin.list_of_ingredients, rin.description⟩], db.nextId + 1⟩) := by
  simp [add_recipes, h]

/-- C4: a create request that validates inserts exactly one new row with
`views = 0` and the storage-assigned id, commits it, and answers with the
full representation of that row. -/
theorem create_valid_commits_row (raw : RawRequest) (rin : RecipesIn) (db : DB)
    (h : validate raw = some rin) :
    add_recipes raw db =
      (.recipeOut ⟨db.nextId, rin.name, 0, rin.cooking_time,
         rin.list_of_ingredients, rin.description⟩,
       ⟨db.rows ++ [⟨db.nextId, rin.name, 0, rin.cooking_time,
          rin.list_of_ingredients, rin.description⟩], db.nextId + 1⟩) :=
  add_valid_eq raw rin db h

/-- Witness for C4 at a concrete request and database. -/
theorem create_valid_commits_row_witness :
    validate sampleRaw = some sampleIn ∧
    add_recipes sampleRaw sampleDB =
      (.recipeOut ⟨sampleDB.nextId, sampleIn.name, 0, sampleIn.cooking_time,
         sampleIn.list_of_ingredients, sampleIn.description⟩,
       ⟨sampleDB.rows ++ [⟨sampleDB.nextId, sampleIn.name, 0, sampleIn.cooking_time,
          sampleIn.list_of_ingredients, sampleIn.description⟩], sampleDB.nextId + 1⟩) :=
  have h : validate sampleRaw = some sampleIn := by rfl
  ⟨h, create_valid_commits_row sampleRaw sampleIn sampleDB h⟩

/-- C5: a create request with a missing required field, or a present but
unparseable `cooking_time`, fails with a 422 validation error and leaves
storage unchanged (no row is created). -/
theorem create_invalid_validation_error (raw : RawRequest) (db : DB)
    (h : raw.name = none ∨ raw.cooking_time = none ∨ raw.list_of_ingredients = none ∨
      raw.description = none ∨ ∃ s, raw.cooking_time = some s ∧ parseTime s = none) :
    add_recipes raw db = (.httpError 422 "validation error", db) := by
  have hv : validate raw = none := by
    rcases raw with ⟨n, ct, ing, d, ex⟩
    rcases h with h | h | h | h | ⟨s, hs, hp⟩
    · simp only at h
      subst h
      cases ct <;> cases ing <;> cases d <;> rfl
    · simp only at h
      subst h
      cases n <;> cases ing <;> cases d <;> rfl
    · simp only at h
      subst h
      cases n <;> cases ct <;> cases d <;> rfl
    · simp only at h
      subst h
      cases n <;> cases ct <;> cases ing <;> rfl
    · simp only at hs
      subst hs
      cases n <;> cases ing <;> cases d <;> simp [validate, hp]
  simp [add_recipes, hv]

/-- Witness for C5 at the concrete unparseable time "invalid_time". -/
theorem create_invalid_validation_error_witness :
    (∃ s, (RawRequest.mk (some "Test") (some "invalid_time") (some "eggs") (some "test") []).cooking_time
        = some s ∧ parseTime s = none) ∧
    add_recipes ⟨some "Test", some "invalid_time", some "eggs", some "test", []⟩ sampleDB =
      (.httpError 422 "validation error", sampleDB) :=
  have h : ∃ s, (RawRequest.mk (some "Test") (some "invalid_time") (some "eggs") (some "test") []).cooking_time
      = some s ∧ parseTime s = none := ⟨"invalid_time", rfl, by rfl⟩
  ⟨h, create_invalid_validation_error _ sampleDB (Or.inr (Or.inr (Or.inr (Or.inr h))))⟩

/-- C6: when the row is found but the commit of the view increment fails,
the handler rolls back — storage is unchanged — yet still answers with a
success body carrying the incremented in-memory view count. -/
theorem get_commit_failure_swallowed (db : DB) (i : Int) (r : Recipes)
    (hWF : WF db) (hr : r ∈ db.rows) (hid : r.id = i) :
    getRecipeById i false db = (.recipeOut { r with views := r.views + 1 }, db) := by
  unfold getRecipeById
  rw [find_eq_some hWF.1 hr hid]
  simp

/-- Witness for C6 at a concrete database. -/
theorem get_commit_failure_swallowed_witness :
    WF sampleDB ∧ sampleRow ∈ sampleDB.rows ∧ sampleRow.id = 1 ∧
    getRecipeById 1 false sampleDB =
      (.recipeOut { sampleRow with views := sampleRow.views + 1 }, sampleDB) :=
  have h1 : WF sampleDB := by constructor <;> decide
  have h2 : sampleRow ∈ sampleDB.rows := by decide
  have h3 : sampleRow.id = 1 := by decide
  ⟨h1, h2, h3, get_commit_failure_swallowed sampleDB 1 sampleRow h1 h2 h3⟩

/-- Second concrete stored row, for frame witnesses. -/
def sampleRow2 : Recipes :=
  ⟨2, "Borscht", 200, ⟨1, 30, 0⟩, "beet, cabbage, potato", "Traditional soup"⟩

/-- Concrete two-row database used by the witnesses. -/
def sampleDB2 : DB := ⟨[sampleRow, sampleRow2], 3⟩

/-- C1: fetching an existing id `n` times sequentially, with every commit
succeeding, leaves the stored counter exactly `n` above its pre-fetch
value, and the k-th response carries the value incremented `k` times. -/
theorem get_n_times_adds_n (db : DB) (i : Int) (r : Recipes) (n : Nat)
    (hWF : WF db) (hr : r ∈ db.rows) (hid : r.id = i) :
    (∃ r' ∈ (getN i n db).2.rows, r'.id = i ∧ r'.views = r.views + n) ∧
    (getN i n db).1 =
      (List.range n).map (fun k => .recipeOut { r with views := r.views + k + 1 }) := by
  induction n generalizing db r with
  | zero => exact ⟨⟨r, hr, hid, rfl⟩, rfl⟩
  | succ n ih =>
    have hstep := get_found hWF hr hid
    have hWF' := WF_map_bump i hWF
    have hmem : ({ r with views := r.views + 1 } : Recipes) ∈
        db.rows.map (fun x => if x.id = i then { x with views := x.views + 1 } else x) :=
      List.mem_map.mpr ⟨r, hr, by simp [hid]⟩
    obtain ⟨⟨r'', hmem'', hid'', hv''⟩, hresp⟩ := ih _ _ hWF' hmem hid
    constructor
    · refine ⟨r'', ?_, hid'', ?_⟩
      · simp only [getN]
        rw [hstep]
        exact hmem''
      · rw [hv'']
        show r.views + 1 + n = r.views + (n + 1)
        omega
    · simp only [getN]
      rw [hstep]
      simp only []
      rw [hresp, List.range_succ_eq_map, List.map_cons, List.map_map]
      refine congrArg₂ _ rfl (List.map_congr_left ?_)
      intro k _
      show Response.recipeOut { r with views := r.views + 1 + k + 1 } =
        Response.recipeOut { r with views := r.views + (k + 1) + 1 }
      congr 2
      omega

/-- Witness for C1 at three sequential fetches of a concrete row. -/
theorem get_n_times_adds_n_witness :
    WF sampleDB ∧ sampleRow ∈ sampleDB.rows ∧ sampleRow.id = 1 ∧
    ((∃ r' ∈ (getN 1 3 sampleDB).2.rows, r'.id = 1 ∧ r'.views = sampleRow.views + 3) ∧
     (getN 1 3 sampleDB).1 =
       (List.range 3).map (fun k => .recipeOut { sampleRow with views := sampleRow.views + k + 1 })) :=
  have h1 : WF sampleDB := by constructor <;> decide
  have h2 : sampleRow ∈ sampleDB.rows := by decide
  have h3 : sampleRow.id = 1 := by decide
  ⟨h1, h2, h3, get_n_times_adds_n sampleDB 1 sampleRow 3 h1 h2 h3⟩

/-- C9: a successful fetch rewrites the stored rows pointwise, bumping the
views of the row with the requested id and leaving every other field of
every row — and the row order — untouched. -/
theorem get_frame_only_views (db : DB) (i : Int) (r : Recipes)
    (hWF : WF db) (hr : r ∈ db.rows) (hid : r.id = i) :
    (getRecipeById i true db).2.rows =
      db.rows.map (fun x => if x.id = i then { x with views := x.views + 1 } else x) := by
  rw [get_found hWF hr hid]

/-- Witness for C9 at a concrete two-row database. -/
theorem get_frame_only_views_witness :
    WF sampleDB2 ∧ sampleRow ∈ sampleDB2.rows ∧ sampleRow.id = 1 ∧
    (getRecipeById 1 true sampleDB2).2.rows =
      sampleDB2.rows.map (fun x => if x.id = 1 then { x with views := x.views + 1 } else x) :=
  have h1 : WF sampleDB2 := by constructor <;> decide
  have h2 : sampleRow ∈ sampleDB2.rows := by decide
  have h3 : sampleRow.id = 1 := by decide
  ⟨h1, h2, h3, get_frame_only_views sampleDB2 1 sampleRow h1 h2 h3⟩

/-- C7: the four caller-supplied fields of a successfully created recipe
come back unchanged when the recipe is re-fetched through the list
endpoint or the get-by-id endpoint (views aside). -/
theorem created_fields_roundtrip (db : DB) (raw : RawRequest) (rin : RecipesIn)
    (hWF : WF db) (hv : validate raw = some rin) :
    (∃ l, (listRecipes (add_recipes raw db).2).1 = .recipeList l ∧
       ∃ r ∈ l, r.id = db.nextId ∧ r.name = rin.name ∧
         r.cooking_time = rin.cooking_time ∧
         r.list_of_ingredients = rin.list_of_ingredients ∧
         r.description = rin.description) ∧
    (∃ r, (getRecipeById db.nextId true (add_recipes raw db).2).1 = .recipeOut r ∧
       r.id = db.nextId ∧ r.name = rin.name ∧ r.cooking_time = rin.cooking_time ∧
       r.list_of_ingredients = rin.list_of_ingredients ∧
       r.description = rin.description) := by
  rw [add_valid_eq raw rin db hv]
  have hWF' : WF ⟨db.rows ++ [⟨db.nextId, rin.name, 0, rin.cooking_time,
      rin.list_of_ingredients, rin.description⟩], db.nextId + 1⟩ :=
    WF_insert _ hWF rfl
  have hnew : (⟨db.nextId, rin.name, 0, rin.cooking_time,
      rin.list_of_ingredients, rin.description⟩ : Recipes) ∈
      db.rows ++ [⟨db.nextId, rin.name, 0, rin.cooking_time,
        rin.list_of_ingredients, rin.description⟩] :=
    List.mem_append_right _ (List.mem_singleton.mpr rfl)
  constructor
  · refine ⟨_, rfl, ⟨db.nextId, rin.name, 0, rin.cooking_time,
      rin.list_of_ingredients, rin.description⟩, ?_, rfl, rfl, rfl, rfl, rfl⟩
    exact List.mem_mergeSort.mpr hnew
  · rw [get_found hWF' hnew rfl]
    exact ⟨_, rfl, rfl, rfl, rfl, rfl, rfl⟩

/-- Witness for C7 at a concrete database and create request. -/
theorem created_fields_roundtrip_witness :
    WF sampleDB ∧ validate sampleRaw = some sampleIn ∧
    ((∃ l, (listRecipes (add_recipes sampleRaw sampleDB).2).1 = .recipeList l ∧
       ∃ r ∈ l, r.id = sampleDB.nextId ∧ r.name = sampleIn.name ∧
         r.cooking_time = sampleIn.cooking_time ∧
         r.list_of_ingredients = sampleIn.list_of_ingredients ∧
         r.description = sampleIn.description) ∧
     (∃ r, (getRecipeById sampleDB.nextId true (add_recipes sampleRaw sampleDB).2).1
         = .recipeOut r ∧
       r.id = sampleDB.nextId ∧ r.name = sampleIn.name ∧
       r.cooking_time = sampleIn.cooking_time ∧
       r.list_of_ingredients = sampleIn.list_of_ingredients ∧
       r.description = sampleIn.description)) :=
  have h1 : WF sampleDB := by constructor <;> decide
  have h2 : validate sampleRaw = some sampleIn := by rfl
  ⟨h1, h2, created_fields_roundtrip sampleDB sampleRaw sampleIn h1 h2⟩

/-- Every single operation preserves storage well-formedness. -/
lemma step_preserves_WF (op : Op) (db : DB) (hWF : WF db) : WF (applyOp op db).2 := by
  match op with
  | .list => exact hWF
  | .get i ok =>
    show WF (getRecipeById i ok db).2
    cases hfind : db.rows.find? (fun x => x.id == i) with
    | none =>
      unfold getRecipeById
      rw [hfind]
      exact hWF
    | some rec =>
      have hmem : rec ∈ db.rows := List.mem_of_find?_eq_some hfind
      have hrid : rec.id = i := by
        have := List.find?_some hfind
        simpa using this
      cases ok with
      | false =>
        unfold getRecipeById
        rw [hfind]
        exact hWF
      | true =>
        rw [get_found hWF hmem hrid]
        exact WF_map_bump i hWF
  | .create raw =>
    show WF (add_recipes raw db).2
    cases hv : validate raw with
    | none =>
      unfold add_recipes
      rw [hv]
      exact hWF
    | some rin =>
      rw [add_valid_eq raw rin db hv]
      exact WF_insert _ hWF rfl

/-- Effect of one operation on one stored row: its id survives, its views
never drop, and any operation other than a committed fetch of exactly that
id leaves the row untouched. -/
lemma step_row (op : Op) (db : DB) (hWF : WF db) (r : Recipes) (hr : r ∈ db.rows) :
    ∃ r' ∈ (applyOp op db).2.rows, r'.id = r.id ∧ r.views ≤ r'.views ∧
      (op ≠ .get r.id true → r' = r) := by
  match op with
  | .list => exact ⟨r, hr, rfl, le_rfl, fun _ => rfl⟩
  | .get i ok =>
    show ∃ r' ∈ (getRecipeById i ok db).2.rows, _
    cases hfind : db.rows.find? (fun x => x.id == i) with
    | none =>
      unfold getRecipeById
      rw [hfind]
      exact ⟨r, hr, rfl, le_rfl, fun _ => rfl⟩
    | some rec =>
      have hmem : rec ∈ db.rows := List.mem_of_find?_eq_some hfind
      have hrid : rec.id = i := by
        have := List.find?_some hfind
        simpa using this
      cases ok with
      | false =>
        unfold getRecipeById
        rw [hfind]
        exact ⟨r, hr, rfl, le_rfl, fun _ => rfl⟩
      | true =>
        rw [get_found hWF hmem hrid]
        by_cases hri : r.id = i
        · refine ⟨{ r with views := r.views + 1 },
            List.mem_map.mpr ⟨r, hr, by simp [hri]⟩, rfl, Nat.le_succ _, ?_⟩
          intro hne
          exact absurd (by rw [hri]) hne
        · exact ⟨r, List.mem_map.mpr ⟨r, hr, by simp [hri]⟩, rfl, le_rfl, fun _ => rfl⟩
  | .create raw =>
    show ∃ r' ∈ (add_recipes raw db).2.rows, _
    cases hv : validate raw with
    | none =>
      unfold add_recipes
      rw [hv]
      exact ⟨r, hr, rfl, le_rfl, fun _ => rfl⟩
    | some rin =>
      rw [add_valid_eq raw rin db hv]
      exact ⟨r, List.mem_append_left _ hr, rfl, le_rfl, fun _ => rfl⟩

/-- C8: along any sequence of API operations from a well-formed state, each
stored row keeps its id with a never-decreasing views counter, and if the
sequence contains no committed fetch of that row's id the row is unchanged:
only the fetch-by-id path ever changes a views value. -/
theorem views_monotone_only_get (ops : List Op) (db : DB) (r : Recipes)
    (hWF : WF db) (hr : r ∈ db.rows) :
    ∃ r' ∈ (applyOps ops db).rows, r'.id = r.id ∧ r.views ≤ r'.views ∧
      (Op.get r.id true ∉ ops → r' = r) := by
  induction ops generalizing db r with
  | nil => exact ⟨r, hr, rfl, le_rfl, fun _ => rfl⟩
  | cons op rest ih =>
    obtain ⟨r₁, hr₁, hid₁, hv₁, hfix₁⟩ := step_row op db hWF r hr
    obtain ⟨r', hr', hid', hv', hfix'⟩ := ih (applyOp op db).2 r₁ (step_preserves_WF op db hWF) hr₁
    refine ⟨r', hr', hid'.trans hid₁, le_trans hv₁ hv', ?_⟩
    intro hno
    have hop : op ≠ .get r.id true := fun hc => hno (hc ▸ List.mem_cons_self op rest)
    have h1 : r₁ = r := hfix₁ hop
    have hrest : Op.get r₁.id true ∉ rest := by
      rw [hid₁]
      exact fun hmem => hno (List.mem_cons_of_mem op hmem)
    rw [hfix' hrest, h1]

/-- Witness for C8 at a concrete state and operation sequence. -/
theorem views_monotone_only_get_witness :
    WF sampleDB2 ∧ sampleRow2 ∈ sampleDB2.rows ∧
    ∃ r' ∈ (applyOps [Op.list, Op.create sampleRaw, Op.get 1 true] sampleDB2).rows,
      r'.id = sampleRow2.id ∧ sampleRow2.views ≤ r'.views ∧
      (Op.get sampleRow2.id true ∉ [Op.list, Op.create sampleRaw, Op.get 1 true] →
        r' = sampleRow2) :=
  have h1 : WF sampleDB2 := by constructor <;> decide
  have h2 : sampleRow2 ∈ sampleDB2.rows := by decide
  ⟨h1, h2, views_monotone_only_get [Op.list, Op.create sampleRaw, Op.get 1 true]
    sampleDB2 sampleRow2 h1 h2⟩

/-- C10: the create endpoint reads only the four declared fields: two raw
bodies agreeing on them — whatever extra keys either carries, including a
caller-supplied views or id — produce identical responses and identical
states. -/
theorem create_ignores_extra_keys (r1 r2 : RawRequest) (db : DB)
    (h1 : r1.name = r2.name) (h2 : r1.cooking_time = r2.cooking_time)
    (h3 : r1.list_of_ingredients = r2.list_of_ingredients)
    (h4 : r1.description = r2.description) :
    add_recipes r1 db = add_recipes r2 db := by
  obtain ⟨n1, c1, i1, d1, e1⟩ := r1
  obtain ⟨n2, c2, i2, d2, e2⟩ := r2
  simp only at h1 h2 h3 h4
  subst h1 h2 h3 h4
  rfl

/-- Witness for C10: an extra caller-supplied views and id key changes
nothing about the created row. -/
theorem create_ignores_extra_keys_witness :
    (RawRequest.mk (some "Test") (some "00:15:00") (some "eggs") (some "test")
        [("views", "100"), ("id", "7")]).name
      = (RawRequest.mk (some "Test") (some "00:15:00") (some "eggs") (some "test") []).name ∧
    add_recipes ⟨some "Test", some "00:15:00", some "eggs", some "test",
        [("views", "100"), ("id", "7")]⟩ sampleDB =
      add_recipes ⟨some "Test", some "00:15:00", some "eggs", some "test", []⟩ sampleDB :=
  ⟨rfl, create_ignores_extra_keys
    ⟨some "Test", some "00:15:00", some "eggs", some "test", [("views", "100"), ("id", "7")]⟩
    ⟨some "Test", some "00:15:00", some "eggs", some "test", []⟩
    sampleDB rfl rfl rfl rfl⟩

end Homework
